import Mathlib

/-!
Shallow embedding of the LFS pointer resolver action (src/index.ts) and
proofs about its reconciliation, pointer-parsing, resolution and dispatch
behaviour.

JavaScript string primitives (`String.prototype.split`, `replace`,
`indexOf`, `parseInt`) are modelled over `List Char` with structural or
fuel-based recursion so that every definition evaluates inside the kernel.
Indexing past the end of a JavaScript array yields `undefined`; that is
modelled with `Option`, and a fault (`TypeError` from dereferencing
`undefined`/`null`) with `Except JsError`.
-/

/-- Faults and thrown errors of the JavaScript runtime model. -/
inductive JsError where
  | typeError : JsError
  | thrown : String → JsError
deriving DecidableEq, Repr

/-- Boolean test that the first list is an initial segment of the second. -/
def isPre : List Char → List Char → Bool
  | [], _ => true
  | _ :: _, [] => false
  | a :: as, b :: bs => a == b && isPre as bs

/-- Find the first occurrence of the literal `sep` in `l`; return the part
before it and the part after it. `none` when `sep` does not occur. -/
def breakAtLit (sep : List Char) : List Char → Option (List Char × List Char)
  | [] => none
  | c :: rest =>
    if isPre sep (c :: rest) then some ([], (c :: rest).drop sep.length)
    else (breakAtLit sep rest).map (fun x => (c :: x.1, x.2))

/-- Fuel-driven repeated split at a literal separator (JS `s.split(sep)` for a
non-empty string separator). -/
def splitLitFuel (sep : List Char) : Nat → List Char → List (List Char)
  | 0, l => [l]
  | fuel + 1, l =>
    match breakAtLit sep l with
    | none => [l]
    | some (b, a) => b :: splitLitFuel sep fuel a

/-- JS `s.split(sep)` for a string separator. An empty separator splits into
single characters, as in JavaScript. -/
def jsSplit (sep s : String) : List String :=
  match sep.data with
  | [] => s.data.map (fun c => String.mk [c])
  | l => (splitLitFuel l (s.data.length + 1) s.data).map String.mk

/-- Find the first occurrence of either literal `p` or `q` (JS regex
alternation `p|q` where neither literal can match strictly inside the
other at the same position). -/
def breakAtAlt (p q : List Char) : List Char → Option (List Char × List Char)
  | [] => none
  | c :: rest =>
    if isPre p (c :: rest) then some ([], (c :: rest).drop p.length)
    else if isPre q (c :: rest) then some ([], (c :: rest).drop q.length)
    else (breakAtAlt p q rest).map (fun x => (c :: x.1, x.2))

/-- Fuel-driven repeated split at a two-literal alternation. -/
def splitAltFuel (p q : List Char) : Nat → List Char → List (List Char)
  | 0, l => [l]
  | fuel + 1, l =>
    match breakAtAlt p q l with
    | none => [l]
    | some (b, a) => b :: splitAltFuel p q fuel a

/-- JS `s.split(/p|q/)` for two non-empty literal alternatives. -/
def jsSplitAlt (p q s : String) : List String :=
  (splitAltFuel p.data q.data (s.data.length + 1) s.data).map String.mk

/-- JS `s.replace(pat, rep)` with a string pattern: replaces only the first
occurrence; an empty pattern matches at position 0. -/
def replaceFirst (pat rep s : String) : String :=
  match pat.data with
  | [] => rep ++ s
  | l =>
    match breakAtLit l s.data with
    | none => s
    | some (b, a) => String.mk b ++ rep ++ String.mk a

/-- JS `s.indexOf(sub) !== -1`: `sub` occurs somewhere in `s`. -/
def containsSub (s sub : String) : Bool :=
  go sub.data s.data
where
  go (p : List Char) : List Char → Bool
    | [] => isPre p []
    | c :: rest => isPre p (c :: rest) || go p rest

/-- Interpolating a possibly-`undefined` JS value into a template string. -/
def optToJS : Option String → String
  | some s => s
  | none => "undefined"

/-- Leading decimal digits of a character list, if any. -/
def leadingNat : List Char → Option Nat
  | [] => none
  | c :: rest =>
    if c.isDigit then
      some (go (c.toNat - '0'.toNat) rest)
    else none
where
  go (acc : Nat) : List Char → Nat
    | [] => acc
    | c :: rest => if c.isDigit then go (acc * 10 + (c.toNat - '0'.toNat)) rest else acc

/-- JS `parseInt` restricted to decimal input: skip leading whitespace, read an
optional sign and then decimal digits; `none` models `NaN`. Applied to an
absent (`undefined`) argument it is also `NaN`. -/
def jsParseInt : Option String → Option Int
  | none => none
  | some s =>
    let l := s.data.dropWhile (fun c => c == ' ' || c == '\t' || c == '\n' || c == '\r')
    match l with
    | '-' :: rest => (leadingNat rest).map (fun n => -(n : Int))
    | '+' :: rest => (leadingNat rest).map (fun n => (n : Int))
    | _ => (leadingNat l).map (fun n => (n : Int))

/-- lodash `uniq`: keep the first occurrence of each value. -/
def uniqAux [BEq α] (seen : List α) : List α → List α
  | [] => []
  | x :: xs => if seen.contains x then uniqAux seen xs else x :: uniqAux (x :: seen) xs

/-- lodash `uniq`. -/
def jsUniq [BEq α] (l : List α) : List α := uniqAux [] l

/-- lodash `union(a, b)`: unique values of the concatenation, first
occurrence order. -/
def jsUnion [BEq α] (a b : List α) : List α := jsUniq (a ++ b)

/-- Worker for `chunkList`, recursing on an explicit fuel bound. -/
def chunkFuel (n : Nat) : Nat → List α → List (List α)
  | _, [] => []
  | 0, l => [l]
  | fuel + 1, x :: xs => (x :: xs.take (n - 1)) :: chunkFuel n fuel (xs.drop (n - 1))

/-- lodash `chunk(l, n)` for `n > 0`: groups of `n` consecutive elements, the
last possibly shorter. Fuel-driven so that it evaluates inside the kernel;
`l.length` steps always suffice. -/
def chunkList (n : Nat) (l : List α) : List (List α) := chunkFuel n l.length l

/-! ## Model of src/index.ts -/

/-- The action's configuration inputs (the `core.getInput` constants). -/
structure Cfg where
  museBucket : String
  printImageDpi : Int
  previewImageDpi : Int
  repository : String
  sourceDir : String
  assetVersion : String
  assetVersionBefore : String
deriving DecidableEq, Repr

/-- `opts` of an asset as produced by `processPointer`: `oid` is the result of
`file[1].split(':')[1]` (possibly `undefined`), `size` the result of
`parseInt` (possibly `NaN`). -/
structure AssetOpts where
  oid : Option String
  size : Option Int
deriving DecidableEq, Repr

/-- An asset record as produced by `processPointer` and threaded through
resolution and dispatch. -/
structure Asset where
  fileName : Option String
  opts : AssetOpts
deriving DecidableEq, Repr

/-- `getModifiedImages`: split the file body on spaces; return `null` when the
body is the single empty field, otherwise prepend `./` and strip the first
newline of each entry. -/
def getModifiedImages (content : String) : Option (List String) :=
  let files := jsSplit " " content
  if files.length == 1 && files.get? 0 == some "" then none
  else some (files.map (fun x => "./" ++ replaceFirst "\n" "" x))

/-- A JS `.length` access on a possibly-`null` array: faults on `null`. -/
def jsLengthOf : Option (List String) → Except JsError Nat
  | none => .error .typeError
  | some l => .ok l.length

/-- `processPointer`: split the file body on newlines and blindly index lines
1 and 2; the split of an absent (`undefined`) line faults with a TypeError. -/
def processPointer (sourceDir path content : String) : Except JsError Asset :=
  let file := jsSplit "\n" content
  match file.get? 1 with
  | none => .error .typeError
  | some line1 =>
    let oid := (jsSplit ":" line1).get? 1
    match file.get? 2 with
    | none => .error .typeError
    | some line2 =>
      let size := jsParseInt ((jsSplit " " line2).get? 1)
      let fileName := (jsSplit (sourceDir ++ "/") path).get? 1
      .ok { fileName, opts := { oid, size } }

/-- `getAuth`: the exec callback resolves
`stdout ? JSON.parse(stdout).header.Authorization : stderr`. The JSON parse
and field accesses are external; their outcome for this stdout is the oracle
`parsed` (a thrown error or the header value). Empty stdout is falsy, so the
promise resolves with stderr. -/
def getAuth (stdoutText stderrText : String) (parsed : Except JsError String) :
    Except JsError String :=
  if stdoutText.data.isEmpty then .ok stderrText else parsed

/-- The head of `resolveAndProcess` for one batch: fetch a token, assign it to
the `Authorization` header (a JS value that is `null` only before the first
assignment), throw when the header is still `null`, otherwise issue the
locator POST. Returns whether the locator call was attempted and the
`Authorization` header it would carry. -/
def resolveBatchStart (stdoutText stderrText : String) (parsed : Except JsError String) :
    Except JsError (Bool × Option String) :=
  match getAuth stdoutText stderrText parsed with
  | .error e => .error e
  | .ok token =>
    let auth : Option String := some token
    if auth.isNone then .error (.thrown "No auth token present")
    else .ok (true, auth)

/-- The request-body template `LFS_TEMPLATE` of the source (note the trailing
space inside the transfer name). -/
structure LfsRequest where
  operation : String
  transfers : List String
  refName : String
  objects : List AssetOpts
deriving DecidableEq, Repr

/-- `LFS_TEMPLATE` as written in the source. -/
def LFS_TEMPLATE : LfsRequest :=
  { operation := "download"
    transfers := ["basic "]
    refName := "refs/heads/master"
    objects := [] }

/-- The request body built per batch: a clone of the template with `objects`
set to the batch's `opts` in input order. -/
def lfsRequestFor (assets : List Asset) : LfsRequest :=
  { LFS_TEMPLATE with objects := assets.map (·.opts) }

/-- Modelled from the spec: the locator request body exactly as §6 words it,
with transfer name `"basic"` (no trailing space). Used to compare the code's
body against the specified one. -/
def specLfsBody (assets : List Asset) : LfsRequest :=
  { operation := "download"
    transfers := ["basic"]
    refName := "refs/heads/master"
    objects := assets.map (·.opts) }

/-- One output destination of an invocation payload (`type` is a Lean keyword,
rendered `dtype`). -/
structure Destination where
  dtype : String
  bucket : String
  key : String
  scale : Rat
deriving DecidableEq, Repr

/-- `source` part of an invocation payload. -/
structure SourceUrl where
  url : String
deriving DecidableEq, Repr

/-- The payload handed to the compute unit for one asset. -/
structure InvocationOptions where
  source : SourceUrl
  destinations : List Destination
deriving DecidableEq, Repr

/-- `createKey`. -/
def createKey (cfg : Cfg) (mode fileName : String) : String :=
  cfg.repository ++ "/" ++ cfg.assetVersion ++ "/" ++ mode ++ "/" ++ fileName

/-- The payload built inside the `zipWith` callback for one url/asset pair. -/
def mkPayload (cfg : Cfg) (url : String) (a : Asset) : InvocationOptions :=
  { source := { url }
    destinations :=
      [ { dtype := "s3"
          bucket := cfg.museBucket
          key := createKey cfg "print" (optToJS a.fileName)
          scale := 1 },
        { dtype := "s3"
          bucket := cfg.museBucket
          key := createKey cfg "preview" (optToJS a.fileName)
          scale := (cfg.previewImageDpi : Rat) / (cfg.printImageDpi : Rat) } ] }

/-- The message of the integrity-mismatch error thrown in the `zipWith`
callback. -/
def mismatchMsg (fileName : Option String) : String :=
  "Mismatch between pointer oid and resolved url for " ++ optToJS fileName

/-- The `zipWith(response, assets, ...)` step. lodash `zipWith` pads the
shorter array with `undefined`, and the callback then faults dereferencing
it; a resolved url that does not contain the asset's oid throws the mismatch
error before any later pair is visited. -/
def zipWithPayload (cfg : Cfg) : List String → List Asset → Except JsError (List InvocationOptions)
  | [], [] => .ok []
  | [], _ :: _ => .error .typeError
  | _ :: _, [] => .error .typeError
  | url :: us, a :: rest =>
    if containsSub url (optToJS a.opts.oid) then
      match zipWithPayload cfg us rest with
      | .error e => .error e
      | .ok tail => .ok (mkPayload cfg url a :: tail)
    else .error (.thrown (mismatchMsg a.fileName))

/-- A compute-unit response: the decoded payload and the function-level error
flag (a string when present, `undefined` otherwise). -/
structure LambdaResp where
  decodedPayload : String
  functionError : Option String
deriving DecidableEq, Repr

/-- Boolean success of an `Except` outcome. -/
def exceptOk : Except ε α → Bool
  | .ok _ => true
  | .error _ => false

/-- The per-asset invocation loop: invoke once; if the response carries a
function-level error and no retry has been spent, invoke a second time; a
function-level error on the final response throws its decoded payload. `send
k` is the compute unit's response to this asset's `(k+1)`-st invocation.
Returns the number of invocations performed and the outcome. -/
def invokeAsset (send : Nat → LambdaResp) : Nat × Except JsError Unit :=
  let lambdaAttempts : Nat := 0
  let first := send 0
  let after :=
    if first.functionError.isSome && decide (lambdaAttempts < 1)
    then (send 1, 2) else (first, 1)
  (after.2, if after.1.functionError.isSome
            then .error (.thrown after.1.decodedPayload)
            else .ok ())

/-- Batch-level dispatch outcome: every asset's invocation loop runs (the
concurrency ceiling is far above the batch size) and the batch succeeds iff
every loop succeeded; completion order is determinized to list order. -/
def batchDispatchOk (sends : List (Nat → LambdaResp)) : Bool :=
  sends.all (fun s => exceptOk (invokeAsset s).2)

/-- A whole batch after URL resolution: build the payloads (aborting on a
padding fault or an integrity mismatch), then dispatch them. -/
def runBatch (cfg : Cfg) (urls : List String) (assets : List Asset)
    (sends : List (Nat → LambdaResp)) : Except JsError (List InvocationOptions) :=
  match zipWithPayload cfg urls assets with
  | .error e => .error e
  | .ok payloads =>
    if batchDispatchOk sends then .ok payloads
    else .error (.thrown "batch invocation failed")

/-- The batch size `resolverChunkSize` used both for copy-forward batches and
for locator batches. -/
def resolverChunkSize : Nat := 50

/-- The in-batch dispatch ceiling `lambdaConcurrency`. -/
def lambdaConcurrency : Nat := 1000

/-- `x.split(SOURCE_DIR + "/")[1]`: the filename extraction used both by
`processPointer` and by `main`. -/
def fileNameOf (cfg : Cfg) (x : String) : Option String :=
  (jsSplit (cfg.sourceDir ++ "/") x).get? 1

/-- `fileSelection`: for every candidate file, the previous build's preview
and print object keys, in that order. -/
def fileSelection (cfg : Cfg) (files : List String) : List String :=
  files.flatMap (fun x =>
    let filename := optToJS (fileNameOf cfg x)
    [ cfg.repository ++ "/" ++ cfg.assetVersionBefore ++ "/preview/" ++ filename,
      cfg.repository ++ "/" ++ cfg.assetVersionBefore ++ "/print/" ++ filename ])

/-- One copy attempt of `copyAllFiles`: compute the destination key, then send
the copy; when the source object is absent from the store the copy fails with
`NoSuchKey` and the destination key is pushed to `uncopiedFiles`. -/
def copyAttempt (cfg : Cfg) (store : List String) (sourceKey : String) : Option String :=
  let destKey := replaceFirst cfg.assetVersionBefore cfg.assetVersion sourceKey
  if store.contains sourceKey then none else some destKey

/-- `uncopiedFiles` after `copyAllFiles`: the selection is copied in batches of
`resolverChunkSize`; completion order inside a batch is determinized to list
order. `store` is the set of object keys present in the previous build's
namespace. -/
def uncopiedFiles (cfg : Cfg) (store : List String) (files : List String) : List String :=
  ((chunkList resolverChunkSize (fileSelection cfg files)).map
    (fun b => b.filterMap (copyAttempt cfg store))).flatten

/-- `x.split(/preview|print/)[1]`: the key suffix after the variant segment. -/
def variantSuffix (k : String) : Option String :=
  (jsSplitAlt "preview" "print" k).get? 1

/-- `deduplicatedUncopiedFiles`: variant suffixes of the uncopied destination
keys, deduplicated, each reattached to the literal prefix `./static-assets`. -/
def dedupUncopied (cfg : Cfg) (store : List String) (files : List String) : List String :=
  (jsUniq ((uncopiedFiles cfg store files).map variantSuffix)).map
    (fun x => "./static-assets" ++ optToJS x)

/-- `filesToProcess`: the regeneration set, `union` of the deduplicated
uncopied files and the modified images. -/
def filesToProcess (cfg : Cfg) (store : List String) (files : List String)
    (modified : List String) : List String :=
  jsUnion (dedupUncopied cfg store files) modified

/-- `main` up to the regeneration set: fetch the modified images, dereference
`.length` in the first log line (a fault when the list is `null`), then run
copy-forward and build `filesToProcess`. -/
def mainRegenSet (cfg : Cfg) (store : List String) (files : List String)
    (content : String) : Except JsError (List String) := do
  let mi := getModifiedImages content
  let _ ← jsLengthOf mi
  pure (filesToProcess cfg store files (mi.getD []))

/-! ### Trace model of the batch loop (`async.eachOfSeries` over batches,
`async.eachLimit` inside a batch) -/

/-- Observable events of one run of the dispatch loop. -/
inductive BatchEv where
  | credFetch (batch : Nat)
  | locatorCall (batch : Nat)
  | invokeEv (batch : Nat) (idx : Nat)
  | batchDone (batch : Nat)
deriving DecidableEq, Repr

/-- The batch an event belongs to. -/
def batchOf : BatchEv → Nat
  | .credFetch k => k
  | .locatorCall k => k
  | .invokeEv k _ => k
  | .batchDone k => k

/-- The events of one batch, in program order: credential fetch, locator POST,
the batch's invocations, completion. -/
def batchTrace (k size : Nat) : List BatchEv :=
  .credFetch k :: .locatorCall k :: (List.range size).map (BatchEv.invokeEv k) ++ [.batchDone k]

/-- The run's event trace: `eachOfSeries` runs the batches one after the
other, so the trace is the concatenation of the batch traces in order. -/
def runTrace (batches : List (List α)) : List BatchEv :=
  batches.enum.flatMap (fun p => batchTrace p.1 p.2.length)

/-- The full dispatch trace for an asset list: chunk into batches of
`resolverChunkSize`, then run the batches in sequence. -/
def dispatchTrace (assets : List α) : List BatchEv :=
  runTrace (chunkList resolverChunkSize assets)

/-- State of the bounded-concurrency executor inside one batch: queued task
indices, running task indices, finished task indices. -/
structure SchedState where
  pending : List Nat
  running : List Nat
  finished : List Nat
deriving DecidableEq, Repr

/-- Steps of `eachLimit`: start the next queued task when strictly fewer than
`limit` tasks are running; or finish any running task. -/
inductive SchedStep (limit : Nat) : SchedState → SchedState → Prop where
  | start (t : Nat) (rest run d : List Nat) :
      run.length < limit →
      SchedStep limit ⟨t :: rest, run, d⟩ ⟨rest, t :: run, d⟩
  | finish (t : Nat) (p r1 r2 d : List Nat) :
      SchedStep limit ⟨p, r1 ++ t :: r2, d⟩ ⟨p, r1 ++ r2, t :: d⟩

/-- Reachability in the executor's transition system. -/
inductive SchedReach (limit : Nat) (init : SchedState) : SchedState → Prop where
  | refl : SchedReach limit init init
  | tail {s t} : SchedReach limit init s → SchedStep limit s t → SchedReach limit init t

/-- The executor's initial state for a batch of `n` payloads. -/
def initSched (n : Nat) : SchedState := ⟨List.range n, [], []⟩

/-- A concrete configuration used by the concrete evaluations below. -/
def sampleCfg : Cfg :=
  { museBucket := "bkt"
    printImageDpi := 300
    previewImageDpi := 72
    repository := "r"
    sourceDir := "static-assets"
    assetVersion := "v1"
    assetVersionBefore := "v0" }

/-- A concrete configuration whose source dir is not `static-assets`. -/
def otherCfg : Cfg := { sampleCfg with sourceDir := "assets" }

/-- A concrete asset record. -/
def sampleAsset : Asset :=
  { fileName := some "a.jpg", opts := { oid := some "c1", size := some 100 } }

/-! ## Sanity checks of the JavaScript primitives -/

example : jsSplit " " "" = [""] := rfl
example : jsSplit " " "a b" = ["a", "b"] := rfl
example : jsSplit "a" "aa" = ["", "", ""] := rfl
example : jsSplit "b" "abc" = ["a", "c"] := rfl
example : jsSplitAlt "preview" "print" "r/v/preview/f.png" = ["r/v/", "/f.png"] := rfl
example : replaceFirst "v0" "v1" "r/v0/x/v0" = "r/v1/x/v0" := rfl
example : containsSub "https://x/c1" "c1" = true := rfl
example : containsSub "https://x/c1" "c9" = false := rfl
example : jsParseInt (some "1234") = some 1234 := rfl
example : jsParseInt (some "x12") = none := rfl
example : jsParseInt none = none := rfl
example : jsUniq ["a", "b", "a"] = ["a", "b"] := rfl
example : jsUnion ["a", "b"] ["b", "c"] = ["a", "b", "c"] := rfl
example : chunkList 2 [1, 2, 3, 4, 5] = [[1, 2], [3, 4], [5]] := by decide


/-! ## Helper lemmas -/

theorem uniqAux_eq_self [BEq α] [LawfulBEq α] :
    ∀ (seen l : List α), l.Nodup → (∀ x ∈ l, x ∉ seen) → uniqAux seen l = l := by
  intro seen l
  induction l generalizing seen with
  | nil => intro _ _; rfl
  | cons x xs ih =>
    intro hnd hout
    rw [List.nodup_cons] at hnd
    have hx : seen.contains x = false := by
      rcases h : seen.contains x with _ | _
      · rfl
      · exact absurd (List.elem_iff.mp h) (hout x (by simp))
    simp only [uniqAux, hx, Bool.false_eq_true, if_false, List.cons.injEq, true_and]
    refine ih (x :: seen) hnd.2 ?_
    intro y hy
    simp only [List.mem_cons, not_or]
    exact ⟨fun he => hnd.1 (he ▸ hy), hout y (List.mem_cons_of_mem x hy)⟩

theorem mem_uniqAux [BEq α] [LawfulBEq α] :
    ∀ (seen l : List α) (x : α), x ∈ uniqAux seen l → x ∈ l := by
  intro seen l
  induction l generalizing seen with
  | nil => intro x hx; simp [uniqAux] at hx
  | cons y ys ih =>
    intro x hx
    simp only [uniqAux] at hx
    by_cases h : seen.contains y = true
    · simp only [h, if_true] at hx
      exact List.mem_cons_of_mem y (ih seen x hx)
    · simp only [h, if_false] at hx
      rcases List.mem_cons.mp hx with he | hm
      · exact he ▸ List.mem_cons_self y ys
      · exact List.mem_cons_of_mem y (ih (y :: seen) x hm)

theorem mem_jsUniq [BEq α] [LawfulBEq α] (l : List α) (x : α) :
    x ∈ jsUniq l → x ∈ l :=
  mem_uniqAux [] l x

theorem uniqAux_cons [BEq α] (seen : List α) (x : α) (xs : List α) :
    uniqAux seen (x :: xs) =
      if seen.contains x then uniqAux seen xs else x :: uniqAux (x :: seen) xs := rfl

theorem uniqAux_pair_collapse [BEq α] [LawfulBEq α] (f : β → α) :
    ∀ (seen : List α) (l : List β),
      uniqAux seen (l.flatMap fun b => [f b, f b]) = uniqAux seen (l.map f) := by
  intro seen l
  induction l generalizing seen with
  | nil => rfl
  | cons b bs ih =>
    simp only [List.flatMap_cons, List.map_cons, List.cons_append, List.nil_append]
    by_cases h : seen.contains (f b) = true
    · rw [uniqAux_cons, if_pos h, uniqAux_cons, if_pos h, uniqAux_cons, if_pos h]
      exact ih seen
    · have h2 : (f b :: seen).contains (f b) = true := by
        simp [List.contains]
      rw [uniqAux_cons, if_neg h, uniqAux_cons, if_pos h2, uniqAux_cons, if_neg h]
      exact congrArg _ (ih (f b :: seen))

theorem uniqAux_append_subset [BEq α] [LawfulBEq α] :
    ∀ (seen a b : List α), a.Nodup → (∀ x ∈ a, x ∉ seen) →
      (∀ m ∈ b, m ∈ seen ∨ m ∈ a) → uniqAux seen (a ++ b) = a := by
  intro seen a
  induction a generalizing seen with
  | nil =>
    intro b _ _ hb
    simp only [List.nil_append]
    induction b generalizing seen with
    | nil => rfl
    | cons y ys ihb =>
      have hy : seen.contains y = true := by
        rcases hb y (by simp) with h | h
        · exact List.elem_iff.mpr h
        · simp at h
      simp only [uniqAux, hy, if_true]
      exact ihb seen (by intro x hx; simp at hx) (fun m hm => hb m (List.mem_cons_of_mem y hm))
  | cons x xs ih =>
    intro b hnd hout hb
    rw [List.nodup_cons] at hnd
    have hx : seen.contains x = false := by
      rcases h : seen.contains x with _ | _
      · rfl
      · exact absurd (List.elem_iff.mp h) (hout x (by simp))
    simp only [List.cons_append, uniqAux, hx, Bool.false_eq_true, if_false,
      List.cons.injEq, true_and]
    refine ih (x :: seen) b hnd.2 ?_ ?_
    · intro y hy
      simp only [List.mem_cons, not_or]
      exact ⟨fun he => hnd.1 (he ▸ hy), hout y (List.mem_cons_of_mem x hy)⟩
    · intro m hm
      rcases hb m hm with h | h
      · exact Or.inl (List.mem_cons_of_mem x h)
      · rcases List.mem_cons.mp h with he | hmm
        · exact Or.inl (he ▸ List.mem_cons_self x seen)
        · exact Or.inr hmm

theorem chunkFuel_nil (n fuel : Nat) : chunkFuel n fuel ([] : List α) = [] := by
  cases fuel <;> rfl

theorem chunkFuel_flatten (n : Nat) :
    ∀ (fuel : Nat) (l : List α), l.length ≤ fuel → (chunkFuel n fuel l).flatten = l := by
  intro fuel
  induction fuel with
  | zero =>
    intro l hl
    cases l with
    | nil => rfl
    | cons x xs => simp at hl
  | succ fuel ih =>
    intro l hl
    cases l with
    | nil => rfl
    | cons x xs =>
      simp only [chunkFuel, List.flatten_cons]
      have hx : (xs.drop (n - 1)).length ≤ fuel := by
        have := List.length_drop (n - 1) xs
        simp only [List.length_cons] at hl
        omega
      rw [ih (xs.drop (n - 1)) hx]
      simp [List.take_append_drop]

theorem chunkList_flatten (n : Nat) (l : List α) : (chunkList n l).flatten = l :=
  chunkFuel_flatten n l.length l le_rfl

theorem flatten_map_filterMap (g : α → Option β) :
    ∀ (L : List (List α)), (L.map (fun b => b.filterMap g)).flatten = L.flatten.filterMap g := by
  intro L
  induction L with
  | nil => rfl
  | cons b rest ih =>
    simp only [List.map_cons, List.flatten_cons, List.filterMap_append, ih]

theorem chunk_filterMap (n : Nat) (g : α → Option β) (l : List α) :
    ((chunkList n l).map (fun b => b.filterMap g)).flatten = l.filterMap g := by
  rw [flatten_map_filterMap, chunkList_flatten]

theorem chunkFuel_sizes (n : Nat) (hn : 0 < n) :
    ∀ (fuel : Nat) (l : List α), l.length ≤ fuel →
      ∀ b ∈ chunkFuel n fuel l, 0 < b.length ∧ b.length ≤ n := by
  intro fuel
  induction fuel with
  | zero =>
    intro l hl b hb
    cases l with
    | nil => simp [chunkFuel] at hb
    | cons x xs => simp at hl
  | succ fuel ih =>
    intro l hl b hb
    cases l with
    | nil => simp [chunkFuel] at hb
    | cons x xs =>
      simp only [chunkFuel, List.mem_cons] at hb
      rcases hb with hb | hb
      · subst hb
        constructor
        · simp
        · simp only [List.length_cons, List.length_take]
          omega
      · have hx : (xs.drop (n - 1)).length ≤ fuel := by
          have := List.length_drop (n - 1) xs
          simp only [List.length_cons] at hl
          omega
        exact ih (xs.drop (n - 1)) hx b hb

theorem chunkFuel_full (n : Nat) (hn : 0 < n) :
    ∀ (fuel : Nat) (l : List α), l.length ≤ fuel →
      ∀ (i : Nat) (b : List α), i + 1 < (chunkFuel n fuel l).length →
        (chunkFuel n fuel l).get? i = some b → b.length = n := by
  intro fuel
  induction fuel with
  | zero =>
    intro l hl i b hi hb
    cases l with
    | nil => simp [chunkFuel] at hi
    | cons x xs => simp at hl
  | succ fuel ih =>
    intro l hl i b hi hb
    cases l with
    | nil => simp [chunkFuel] at hi
    | cons x xs =>
      simp only [chunkFuel, List.length_cons] at hi hb
      have hx : (xs.drop (n - 1)).length ≤ fuel := by
        have := List.length_drop (n - 1) xs
        simp only [List.length_cons] at hl
        omega
      cases i with
      | zero =>
        simp only [List.get?] at hb
        injection hb with hb
        subst hb
        have hrest : chunkFuel n fuel (xs.drop (n - 1)) ≠ [] := by
          intro hemp
          rw [hemp] at hi
          simp at hi
        have hdrop : xs.drop (n - 1) ≠ [] := by
          intro hemp
          rw [hemp, chunkFuel_nil] at hrest
          exact hrest rfl
        have hlen : n - 1 < xs.length := by
          by_contra hcon
          push_neg at hcon
          exact hdrop (List.drop_eq_nil_of_le hcon)
        simp only [List.length_cons, List.length_take]
        omega
      | succ j =>
        simp only [List.get?] at hb
        exact ih (xs.drop (n - 1)) hx j b (by omega) hb

theorem strAppend_left_cancel {s a b : String} (h : s ++ a = s ++ b) : a = b := by
  have hd := congrArg String.data h
  simp only [String.data_append] at hd
  exact String.ext (List.append_cancel_left hd)

theorem strAppend_left_inj (s : String) : Function.Injective (fun t => s ++ t) :=
  fun _ _ h => strAppend_left_cancel h

theorem strAppend_right_cancel {a b c : String} (h : a ++ c = b ++ c) : a = b := by
  have hd := congrArg String.data h
  simp only [String.data_append] at hd
  exact String.ext (List.append_cancel_right hd)

theorem filterMap_someComp (g : α → β) :
    ∀ (l : List α), (l.filterMap fun a => some (g a)) = l.map g := by
  intro l
  induction l with
  | nil => rfl
  | cons x xs ih => simp only [List.filterMap_cons, List.map_cons, ih]

theorem flatMap_congr {f g : α → List β} :
    ∀ (l : List α), (∀ x ∈ l, f x = g x) → l.flatMap f = l.flatMap g := by
  intro l
  induction l with
  | nil => intro _; rfl
  | cons x xs ih =>
    intro h
    simp only [List.flatMap_cons, h x (by simp), ih (fun y hy => h y (List.mem_cons_of_mem x hy))]

theorem map_congr_mem {f g : α → β} :
    ∀ (l : List α), (∀ x ∈ l, f x = g x) → l.map f = l.map g := by
  intro l
  induction l with
  | nil => intro _; rfl
  | cons x xs ih =>
    intro h
    simp only [List.map_cons, h x (by simp), ih (fun y hy => h y (List.mem_cons_of_mem x hy))]

theorem mem_batchTrace_batchOf {e : BatchEv} {k n : Nat} (h : e ∈ batchTrace k n) :
    batchOf e = k := by
  simp only [batchTrace, List.mem_cons, List.mem_append, List.mem_map,
    List.mem_singleton] at h
  rcases h with (rfl | rfl | ⟨i, _, rfl⟩) | rfl | h
  · rfl
  · rfl
  · rfl
  · rfl
  · simp at h

theorem mem_enumFlatMap_le {e : BatchEv} :
    ∀ (k : Nat) (l : List (List α)),
      e ∈ (List.enumFrom k l).flatMap (fun p => batchTrace p.1 p.2.length) → k ≤ batchOf e := by
  intro k l
  induction l generalizing k with
  | nil => intro h; simp at h
  | cons b rest ih =>
    intro h
    simp only [List.enumFrom, List.flatMap_cons, List.mem_append] at h
    rcases h with h | h
    · exact (mem_batchTrace_batchOf h).ge
    · exact Nat.le_of_succ_le (ih (k + 1) h)

theorem enumFlatMap_mono {i j : Nat} {e1 e2 : BatchEv} :
    ∀ (k : Nat) (l : List (List α)),
      ((List.enumFrom k l).flatMap (fun p => batchTrace p.1 p.2.length)).get? i = some e1 →
      ((List.enumFrom k l).flatMap (fun p => batchTrace p.1 p.2.length)).get? j = some e2 →
      i ≤ j → batchOf e1 ≤ batchOf e2 := by
  intro k l
  induction l generalizing k i j with
  | nil => intro h1 _ _; simp at h1
  | cons b rest ih =>
    intro h1 h2 hij
    simp only [List.enumFrom, List.flatMap_cons] at h1 h2
    set m := (batchTrace k b.length).length with hm
    by_cases hi : i < m
    · rw [List.get?_append hi] at h1
      by_cases hj : j < m
      · rw [List.get?_append hj] at h2
        rw [mem_batchTrace_batchOf (List.get?_mem h1),
          mem_batchTrace_batchOf (List.get?_mem h2)]
      · push_neg at hj
        rw [List.get?_append_right hj] at h2
        have hk1 : k ≤ batchOf e1 := (mem_batchTrace_batchOf (List.get?_mem h1)).ge
        have hk2 : k + 1 ≤ batchOf e2 := mem_enumFlatMap_le (k + 1) rest (List.get?_mem h2)
        rw [mem_batchTrace_batchOf (List.get?_mem h1)]
        omega
    · push_neg at hi
      have hj : m ≤ j := le_trans hi hij
      rw [List.get?_append_right hi] at h1
      rw [List.get?_append_right hj] at h2
      exact ih (k + 1) h1 h2 (by omega)

theorem sched_running_le (limit : Nat) :
    ∀ (n : Nat) (s : SchedState), SchedReach limit (initSched n) s →
      s.running.length ≤ limit := by
  intro n s h
  induction h with
  | refl => simp [initSched]
  | tail _ hstep ih =>
    cases hstep with
    | start t rest run d hlt => simpa using hlt
    | finish t p r1 r2 d =>
      simp only [List.length_append, List.length_cons] at ih ⊢
      omega

/-! ## Claim theorems -/

/-- C10: when the modified-images input file contains only the empty string,
`getModifiedImages` returns `null` (not an empty list), and `main`'s
subsequent `.length` access on that result faults, so every such run aborts
before reconciliation rather than proceeding with an empty modified-asset
set. -/
theorem c10_empty_modified_faults (cfg : Cfg) (store files : List String) :
    getModifiedImages "" = none ∧
    jsLengthOf (getModifiedImages "") = .error .typeError ∧
    mainRegenSet cfg store files "" = .error .typeError :=
  ⟨rfl, rfl, rfl⟩

/-- C3: pointer parsing does not fail with `MalformedPointer` on malformed
input. On a single-line pointer text it faults with a TypeError (blind
index of the missing second line); on a non-numeric size token it returns a
record whose size is `NaN` instead of failing. A well-formed pointer is
parsed as the claim describes (line 2 after `:`, integer second token of
line 3). -/
theorem c3_parse_misbehaves :
    processPointer "static-assets" "p" "x" = .error .typeError ∧
    processPointer "static-assets" "./static-assets/a.png"
        "version https://git-lfs.github.com/spec/v1\noid sha256:abc\nsize x" =
      .ok { fileName := some "a.png", opts := { oid := some "abc", size := none } } ∧
    processPointer "static-assets" "./static-assets/a.png"
        "version https://git-lfs.github.com/spec/v1\noid sha256:abc\nsize 12" =
      .ok { fileName := some "a.png", opts := { oid := some "abc", size := some 12 } } :=
  ⟨rfl, rfl, rfl⟩

/-- C8 counterexample: the request body the code builds is not the one the
claim states — the `transfers` entry carries a trailing space
(`"basic "`, from `LFS_TEMPLATE`), so the body differs from
`{..., transfers: ["basic"], ...}` already on a one-asset batch. -/
theorem c8_body_differs :
    lfsRequestFor [sampleAsset] ≠ specLfsBody [sampleAsset] := by
  decide

/-- C8 (amended): for every batch, the request body sent is exactly
`{operation: "download", transfers: ["basic "], ref: {name:
"refs/heads/master"}, objects: [{oid, size}, ...]}` with `objects` the
batch's `opts` in input order — the transfer name carries a trailing
space. -/
theorem c8_body_amended (assets : List Asset) :
    lfsRequestFor assets =
      { operation := "download"
        transfers := ["basic "]
        refName := "refs/heads/master"
        objects := assets.map (·.opts) } := rfl

/-- C6: the run does not fail with `NoCredential` before the locator call.
Whenever `getAuth` resolves (and it resolves with the stderr text, possibly
empty, when stdout is empty), the `Authorization` header is a string, the
`=== null` guard does not fire, and the locator POST is attempted; in
particular an empty credential fetch (`stdout = stderr = ""`) reaches the
locator call with an empty Authorization header. -/
theorem c6_guard_never_fires :
    (∀ (stdoutText stderrText : String) (parsed : Except JsError String) (token : String),
        getAuth stdoutText stderrText parsed = .ok token →
        resolveBatchStart stdoutText stderrText parsed = .ok (true, some token)) ∧
    getAuth "" "" (.error .typeError) = .ok "" := by
  refine ⟨?_, rfl⟩
  intro so se p t h
  simp [resolveBatchStart, h]

/-- Witness for the C6 theorem: with empty stdout and stderr the locator call
is attempted with an empty Authorization header. -/
theorem c6_guard_never_fires_witness :
    resolveBatchStart "" "" (.error .typeError) = .ok (true, some "") :=
  c6_guard_never_fires.1 "" "" (.error .typeError) "" rfl

theorem zipWithPayload_mismatch (cfg : Cfg) :
    ∀ (urls : List String) (assets : List Asset) (i : Nat) (url : String) (v : Asset),
      urls.get? i = some url → assets.get? i = some v →
      containsSub url (optToJS v.opts.oid) = false →
      ∃ fn, zipWithPayload cfg urls assets = .error (.thrown (mismatchMsg fn)) := by
  intro urls
  induction urls with
  | nil => intro assets i url v hu; simp at hu
  | cons u us ih =>
    intro assets i url v hu ha hc
    cases assets with
    | nil => simp at ha
    | cons b bs =>
      cases i with
      | zero =>
        simp only [List.get?] at hu ha
        injection hu with hu
        injection ha with ha
        subst hu
        subst ha
        refine ⟨b.fileName, ?_⟩
        simp [zipWithPayload, hc]
      | succ j =>
        simp only [List.get?] at hu ha
        by_cases hb : containsSub u (optToJS b.opts.oid) = true
        · obtain ⟨fn, hfn⟩ := ih bs j url v hu ha hc
          exact ⟨fn, by simp [zipWithPayload, hb, hfn]⟩
        · simp only [Bool.not_eq_true] at hb
          exact ⟨b.fileName, by simp [zipWithPayload, hb]⟩

theorem zipWithPayload_ok_sound (cfg : Cfg) :
    ∀ (urls : List String) (assets : List Asset) (ps : List InvocationOptions),
      zipWithPayload cfg urls assets = .ok ps →
      ∀ (i : Nat) (url : String) (v : Asset),
        urls.get? i = some url → assets.get? i = some v →
        ∃ p, ps.get? i = some p ∧ p.source.url = url ∧
          containsSub url (optToJS v.opts.oid) = true := by
  intro urls
  induction urls with
  | nil => intro assets ps hok i url v hu; simp at hu
  | cons u us ih =>
    intro assets ps hok i url v hu ha
    cases assets with
    | nil => simp [zipWithPayload] at hok
    | cons b bs =>
      by_cases hb : containsSub u (optToJS b.opts.oid) = true
      · simp only [zipWithPayload, hb, if_true] at hok
        cases hrec : zipWithPayload cfg us bs with
        | error e => rw [hrec] at hok; simp at hok
        | ok tail =>
          rw [hrec] at hok
          simp only [Except.ok.injEq] at hok
          subst hok
          cases i with
          | zero =>
            simp only [List.get?] at hu ha ⊢
            injection hu with hu
            injection ha with ha
            subst hu
            subst ha
            exact ⟨mkPayload cfg u b, rfl, rfl, hb⟩
          | succ j =>
            simp only [List.get?] at hu ha ⊢
            exact ih bs tail hrec j url v hu ha
      · simp only [Bool.not_eq_true] at hb
        simp [zipWithPayload, hb] at hok

/-- C4: if the `i`-th resolved URL does not contain the `i`-th asset's
content id, building the batch's payloads throws the integrity-mismatch
error (so the batch run fails and nothing of it is dispatched); and
whenever the payloads are built, the payload at each position carries the
resolved URL of that position and that URL contains the corresponding
asset's content id. -/
theorem c4_integrity :
    (∀ (cfg : Cfg) (urls : List String) (assets : List Asset) (i : Nat)
        (url : String) (v : Asset),
        urls.get? i = some url → assets.get? i = some v →
        containsSub url (optToJS v.opts.oid) = false →
        ∃ fn, zipWithPayload cfg urls assets = .error (.thrown (mismatchMsg fn))) ∧
    (∀ (cfg : Cfg) (urls : List String) (assets : List Asset)
        (sends : List (Nat → LambdaResp)) (i : Nat) (url : String) (v : Asset),
        urls.get? i = some url → assets.get? i = some v →
        containsSub url (optToJS v.opts.oid) = false →
        ∃ fn, runBatch cfg urls assets sends = .error (.thrown (mismatchMsg fn))) ∧
    (∀ (cfg : Cfg) (urls : List String) (assets : List Asset)
        (ps : List InvocationOptions),
        zipWithPayload cfg urls assets = .ok ps →
        ∀ (i : Nat) (url : String) (v : Asset),
          urls.get? i = some url → assets.get? i = some v →
          ∃ p, ps.get? i = some p ∧ p.source.url = url ∧
            containsSub url (optToJS v.opts.oid) = true) := by
  refine ⟨fun cfg => zipWithPayload_mismatch cfg, ?_, fun cfg => zipWithPayload_ok_sound cfg⟩
  intro cfg urls assets sends i url v hu ha hc
  obtain ⟨fn, hfn⟩ := zipWithPayload_mismatch cfg urls assets i url v hu ha hc
  exact ⟨fn, by simp [runBatch, hfn]⟩

/-- Witness for the C4 theorem: a mismatching URL aborts payload
construction, and a matching batch yields payloads whose URLs embed the
oids. -/
theorem c4_integrity_witness :
    (∃ fn, zipWithPayload sampleCfg ["https://x/zz"] [sampleAsset] =
      .error (.thrown (mismatchMsg fn))) ∧
    (∃ p, [mkPayload sampleCfg "https://x/c1" sampleAsset].get? 0 = some p ∧
      p.source.url = "https://x/c1" ∧
      containsSub "https://x/c1" (optToJS sampleAsset.opts.oid) = true) :=
  ⟨c4_integrity.1 sampleCfg ["https://x/zz"] [sampleAsset] 0 "https://x/zz" sampleAsset
      rfl rfl (by decide),
   c4_integrity.2.2 sampleCfg ["https://x/c1"] [sampleAsset]
      [mkPayload sampleCfg "https://x/c1" sampleAsset] rfl 0 "https://x/c1" sampleAsset
      rfl rfl⟩

/-- C5: per asset, the compute unit is invoked exactly once when the first
response carries no function-level error; exactly twice when the first
response carries one (a single retry); two consecutive function-level
errors make the asset's loop throw the second decoded payload and its batch
fail; and no asset is ever invoked a third time. -/
theorem c5_retry_semantics :
    (∀ send : Nat → LambdaResp, (send 0).functionError = none →
        invokeAsset send = (1, .ok ())) ∧
    (∀ (send : Nat → LambdaResp) (e : String), (send 0).functionError = some e →
        (send 1).functionError = none → invokeAsset send = (2, .ok ())) ∧
    (∀ (send : Nat → LambdaResp) (e1 e2 : String), (send 0).functionError = some e1 →
        (send 1).functionError = some e2 →
        invokeAsset send = (2, .error (.thrown (send 1).decodedPayload))) ∧
    (∀ send : Nat → LambdaResp, (invokeAsset send).1 ≤ 2) ∧
    (∀ (sends : List (Nat → LambdaResp)) (i : Nat) (s : Nat → LambdaResp)
        (e1 e2 : String), sends.get? i = some s → (s 0).functionError = some e1 →
        (s 1).functionError = some e2 → batchDispatchOk sends = false) := by
  have h3 : ∀ (send : Nat → LambdaResp) (e1 e2 : String),
      (send 0).functionError = some e1 → (send 1).functionError = some e2 →
      invokeAsset send = (2, .error (.thrown (send 1).decodedPayload)) := by
    intro send e1 e2 h1 h2
    simp [invokeAsset, h1, h2]
  refine ⟨?_, ?_, h3, ?_, ?_⟩
  · intro send h
    simp [invokeAsset, h]
  · intro send e h1 h2
    simp [invokeAsset, h1, h2]
  · intro send
    by_cases h : (send 0).functionError.isSome = true
    · simp [invokeAsset, h]
    · simp only [Bool.not_eq_true] at h
      simp [invokeAsset, h]
  · intro sends i s e1 e2 hget h1 h2
    refine List.all_eq_false.mpr ⟨s, List.get?_mem hget, ?_⟩
    rw [h3 s e1 e2 h1 h2]
    simp [exceptOk]

/-- Witness for the C5 theorem: one invocation on immediate success, and a
batch containing an asset with two consecutive function-level errors
fails. -/
theorem c5_retry_semantics_witness :
    invokeAsset (fun _ => { decodedPayload := "done", functionError := none }) =
      (1, .ok ()) ∧
    batchDispatchOk [fun _ => { decodedPayload := "boom", functionError := some "Unhandled" }] =
      false :=
  ⟨c5_retry_semantics.1 _ rfl,
   c5_retry_semantics.2.2.2.2 _ 0
      (fun _ => { decodedPayload := "boom", functionError := some "Unhandled" })
      "Unhandled" "Unhandled" rfl rfl rfl⟩

/-- C1: on a warm build, the final regeneration set is exactly the
deduplicated missing-source copy failures followed by the modified-asset
list; with `N` deduplicated failures and `M` distinct modified assets,
the two sets disjoint, its size is `N + M`. -/
theorem c1_warm_union (cfg : Cfg) (store files modified : List String) (N M : Nat)
    (hN : (dedupUncopied cfg store files).length = N)
    (hndD : (dedupUncopied cfg store files).Nodup)
    (hM : modified.length = M)
    (hndM : modified.Nodup)
    (hdisj : ∀ x ∈ dedupUncopied cfg store files, x ∉ modified) :
    filesToProcess cfg store files modified = dedupUncopied cfg store files ++ modified ∧
    (filesToProcess cfg store files modified).length = N + M := by
  have heq : filesToProcess cfg store files modified =
      dedupUncopied cfg store files ++ modified := by
    unfold filesToProcess jsUnion jsUniq
    apply uniqAux_eq_self
    · exact hndD.append hndM (List.disjoint_left.mpr hdisj)
    · intro x _
      simp
  exact ⟨heq, by rw [heq, List.length_append, hN, hM]⟩

/-- Witness for the C1 theorem: one candidate whose prior derivatives are
absent, one candidate fully copied forward, one modified asset. -/
theorem c1_warm_union_witness :
    filesToProcess sampleCfg ["r/v0/preview/images/b.png", "r/v0/print/images/b.png"]
        ["./static-assets/images/a.png", "./static-assets/images/b.png"] ["./m.png"] =
      dedupUncopied sampleCfg ["r/v0/preview/images/b.png", "r/v0/print/images/b.png"]
        ["./static-assets/images/a.png", "./static-assets/images/b.png"] ++ ["./m.png"] ∧
    (filesToProcess sampleCfg ["r/v0/preview/images/b.png", "r/v0/print/images/b.png"]
        ["./static-assets/images/a.png", "./static-assets/images/b.png"] ["./m.png"]).length =
      1 + 1 :=
  c1_warm_union sampleCfg
    ["r/v0/preview/images/b.png", "r/v0/print/images/b.png"]
    ["./static-assets/images/a.png", "./static-assets/images/b.png"]
    ["./m.png"] 1 1 (by decide) (by decide) rfl (by decide) (by decide)

/-- C9: every entry of the deduplicated regeneration list is the literal
prefix `./static-assets` followed by the variant suffix of an uncopied key,
whatever the configured source dir; and a reconstructed path
`./static-assets/<f>` equals the candidate path `./<sd>/<f>` exactly when
`sd` is `static-assets`. -/
theorem c9_hardcoded_static_assets :
    (∀ (cfg : Cfg) (store files : List String) (y : String),
        y ∈ dedupUncopied cfg store files →
        ∃ k, k ∈ uncopiedFiles cfg store files ∧
          y = "./static-assets" ++ optToJS (variantSuffix k)) ∧
    (∀ sd f : String,
        "./static-assets" ++ ("/" ++ f) = "./" ++ sd ++ ("/" ++ f) ↔
          sd = "static-assets") := by
  constructor
  · intro cfg store files y hy
    simp only [dedupUncopied, List.mem_map] at hy
    obtain ⟨o, ho, hoy⟩ := hy
    have hmem := mem_jsUniq _ o ho
    simp only [List.mem_map] at hmem
    obtain ⟨k, hk, hko⟩ := hmem
    exact ⟨k, hk, by rw [← hoy, hko]⟩
  · intro sd f
    constructor
    · intro h
      rw [show ("./static-assets" : String) = "./" ++ "static-assets" from rfl] at h
      have h1 := strAppend_right_cancel h
      have h2 := strAppend_left_cancel h1
      exact h2.symm
    · intro h
      subst h
      rfl

/-- Witness for the C9 theorem: with source dir `assets`, the uncopied key of
`./assets/x.png` reconstructs under the `./static-assets` prefix, and the
prefix-equality characterization holds at `sd = "static-assets"`. -/
theorem c9_hardcoded_static_assets_witness :
    (∃ k, k ∈ uncopiedFiles otherCfg [] ["./assets/x.png"] ∧
      "./static-assets/x.png" = "./static-assets" ++ optToJS (variantSuffix k)) ∧
    ("./static-assets" ++ ("/" ++ "p") = "./" ++ "static-assets" ++ ("/" ++ "p")) :=
  ⟨c9_hardcoded_static_assets.1 otherCfg [] ["./assets/x.png"] "./static-assets/x.png"
      (by decide),
   (c9_hardcoded_static_assets.2 "static-assets" "p").mpr rfl⟩

/-- C7: the asset list is split into fixed-size batches of
`resolverChunkSize = 50` that partition it in order, only the last batch
smaller; in the run trace the batches appear strictly in sequence (every
event of a later batch comes after every event of an earlier one); and the
in-batch executor, run with the ceiling `lambdaConcurrency = 1000`, never
has more than `lambdaConcurrency` invocations in flight. -/
theorem c7_batching {α : Type} :
    (∀ assets : List α,
        (chunkList resolverChunkSize assets).flatten = assets ∧
        (∀ b ∈ chunkList resolverChunkSize assets,
          0 < b.length ∧ b.length ≤ resolverChunkSize) ∧
        (∀ (i : Nat) (b : List α), i + 1 < (chunkList resolverChunkSize assets).length →
          (chunkList resolverChunkSize assets).get? i = some b →
          b.length = resolverChunkSize)) ∧
    (∀ (batches : List (List α)) (i j : Nat) (e1 e2 : BatchEv),
        (runTrace batches).get? i = some e1 → (runTrace batches).get? j = some e2 →
        i ≤ j → batchOf e1 ≤ batchOf e2) ∧
    (∀ (n : Nat) (s : SchedState), SchedReach lambdaConcurrency (initSched n) s →
        s.running.length ≤ lambdaConcurrency) := by
  refine ⟨?_, ?_, sched_running_le lambdaConcurrency⟩
  · intro assets
    refine ⟨chunkList_flatten resolverChunkSize assets, ?_, ?_⟩
    · exact chunkFuel_sizes resolverChunkSize (by norm_num [resolverChunkSize])
        assets.length assets le_rfl
    · exact chunkFuel_full resolverChunkSize (by norm_num [resolverChunkSize])
        assets.length assets le_rfl
  · intro batches i j e1 e2 h1 h2 hij
    exact enumFlatMap_mono 0 batches h1 h2 hij

/-- Witness for the C7 theorem: a three-element list is one batch that
partitions it; in a two-batch trace position 0 belongs to a batch no later
than position 4; the initial executor state runs nothing. -/
theorem c7_batching_witness :
    (chunkList resolverChunkSize [0, 1, 2]).flatten = [0, 1, 2] ∧
    batchOf (BatchEv.credFetch 0) ≤ batchOf (BatchEv.credFetch 1) ∧
    (initSched 3).running.length ≤ lambdaConcurrency :=
  ⟨((@c7_batching Nat).1 [0, 1, 2]).1,
   (@c7_batching Nat).2.1 [[0], [1]] 0 4 (BatchEv.credFetch 0) (BatchEv.credFetch 1)
      rfl rfl (by omega),
   (@c7_batching Nat).2.2 3 (initSched 3) SchedReach.refl⟩

/-- C2 counterexample: on a cold build (empty object store) the engine does
not return the candidate list unchanged — the reconstructed paths carry the
hardcoded `./static-assets` prefix although the source dir is `assets`, and
the modified list is unioned in. -/
theorem c2_cold_not_unchanged :
    filesToProcess otherCfg [] ["./assets/images/a.png"] ["./assets/images/a.png"] ≠
      ["./assets/images/a.png"] := by
  decide

/-- C2 (amended): on a cold build the regeneration set is the deduplicated
reconstruction of every candidate under the hardcoded `./static-assets`
prefix unioned with the modified list; when the source dir is
`static-assets`, the key segments are well behaved (the per-file hypotheses
on the split, replace and variant-suffix results), the candidates are
distinct and every modified asset is a candidate, this equals the full
candidate list. -/
theorem c2_cold_amended (cfg : Cfg) (fnames modified : List String)
    (hfn : ∀ f ∈ fnames, fileNameOf cfg ("./static-assets/" ++ f) = some f)
    (hrp : ∀ f ∈ fnames,
      replaceFirst cfg.assetVersionBefore cfg.assetVersion
          (cfg.repository ++ "/" ++ cfg.assetVersionBefore ++ "/preview/" ++ f) =
        cfg.repository ++ "/" ++ cfg.assetVersion ++ "/preview/" ++ f)
    (hrq : ∀ f ∈ fnames,
      replaceFirst cfg.assetVersionBefore cfg.assetVersion
          (cfg.repository ++ "/" ++ cfg.assetVersionBefore ++ "/print/" ++ f) =
        cfg.repository ++ "/" ++ cfg.assetVersion ++ "/print/" ++ f)
    (hsp : ∀ f ∈ fnames,
      variantSuffix (cfg.repository ++ "/" ++ cfg.assetVersion ++ "/preview/" ++ f) =
        some ("/" ++ f))
    (hsq : ∀ f ∈ fnames,
      variantSuffix (cfg.repository ++ "/" ++ cfg.assetVersion ++ "/print/" ++ f) =
        some ("/" ++ f))
    (hnd : fnames.Nodup)
    (hmod : ∀ m ∈ modified, m ∈ fnames.map (fun f => "./static-assets/" ++ f)) :
    filesToProcess cfg [] (fnames.map (fun f => "./static-assets/" ++ f)) modified =
      fnames.map (fun f => "./static-assets/" ++ f) := by
  have hsel : fileSelection cfg (fnames.map (fun f => "./static-assets/" ++ f)) =
      fnames.flatMap (fun f =>
        [cfg.repository ++ "/" ++ cfg.assetVersionBefore ++ "/preview/" ++ f,
         cfg.repository ++ "/" ++ cfg.assetVersionBefore ++ "/print/" ++ f]) := by
    unfold fileSelection
    rw [List.flatMap_map]
    apply flatMap_congr
    intro f hf
    rw [hfn f hf]
    rfl
  have hunc : uncopiedFiles cfg [] (fnames.map (fun f => "./static-assets/" ++ f)) =
      fnames.flatMap (fun f =>
        [cfg.repository ++ "/" ++ cfg.assetVersion ++ "/preview/" ++ f,
         cfg.repository ++ "/" ++ cfg.assetVersion ++ "/print/" ++ f]) := by
    unfold uncopiedFiles
    rw [chunk_filterMap, hsel]
    have hca : copyAttempt cfg ([] : List String) = fun sk =>
        some (replaceFirst cfg.assetVersionBefore cfg.assetVersion sk) := rfl
    rw [hca, filterMap_someComp, List.map_flatMap]
    apply flatMap_congr
    intro f hf
    simp only [List.map_cons, List.map_nil]
    rw [hrp f hf, hrq f hf]
  have hsuf : (uncopiedFiles cfg [] (fnames.map (fun f => "./static-assets/" ++ f))).map
        variantSuffix =
      fnames.flatMap (fun f => [some ("/" ++ f), some ("/" ++ f)]) := by
    rw [hunc, List.map_flatMap]
    apply flatMap_congr
    intro f hf
    simp only [List.map_cons, List.map_nil]
    rw [hsp f hf, hsq f hf]
  have hinj : Function.Injective (fun f : String => some ("/" ++ f)) := by
    intro a b h
    simp only [Option.some.injEq] at h
    exact strAppend_left_cancel h
  have huniq : jsUniq ((uncopiedFiles cfg []
        (fnames.map (fun f => "./static-assets/" ++ f))).map variantSuffix) =
      fnames.map (fun f => some ("/" ++ f)) := by
    rw [hsuf]
    unfold jsUniq
    rw [uniqAux_pair_collapse (fun f : String => some ("/" ++ f)) [] fnames]
    apply uniqAux_eq_self
    · exact hnd.map hinj
    · intro x _
      simp
  have hded : dedupUncopied cfg [] (fnames.map (fun f => "./static-assets/" ++ f)) =
      fnames.map (fun f => "./static-assets/" ++ f) := by
    unfold dedupUncopied
    rw [huniq, List.map_map]
    apply map_congr_mem
    intro f _
    show "./static-assets" ++ ("/" ++ f) = "./static-assets/" ++ f
    rw [← String.append_assoc]
    rfl
  have hfilesnd : (fnames.map (fun f => "./static-assets/" ++ f)).Nodup :=
    hnd.map (strAppend_left_inj "./static-assets/")
  unfold filesToProcess jsUnion jsUniq
  rw [hded]
  apply uniqAux_append_subset
  · exact hfilesnd
  · intro x _
    simp
  · intro m hm
    exact Or.inr (hmod m hm)

/-- Witness for the C2 amended theorem: with source dir `static-assets`, a
single well-formed candidate and that same file modified, the cold-build
regeneration set is exactly the candidate list. -/
theorem c2_cold_amended_witness :
    filesToProcess sampleCfg [] (["a.png"].map (fun f => "./static-assets/" ++ f))
        ["./static-assets/a.png"] =
      ["a.png"].map (fun f => "./static-assets/" ++ f) :=
  c2_cold_amended sampleCfg ["a.png"] ["./static-assets/a.png"]
    (by decide) (by decide) (by decide) (by decide) (by decide) (by decide) (by decide)
